import Mathlib

/-!
Verification of the session / streaming core of a terminal chatbot.

The definitions below are a shallow embedding of the Python sources:
  * `Message`, `Session` with `to_dict` / `from_dict` / `get_messages_for_api`
    embed `src/chatbot_tui/session.py` (classes `Message`, `Session`);
  * `ManagerState` with `create_session`, `list_sessions`, `get_session`,
    `switch_to_session`, `delete_session`, `save_session`, `load_session`,
    `load_all_sessions`, `managerInit` embed class `SessionManager`;
  * `chat_stream_yields`, `classifyError` embed `LLMClient.chat_stream`
    (`src/chatbot_tui/llm.py`);
  * `run_chat_turn` embeds the per-turn part of `run_chat_loop`
    (`src/chatbot_tui/main.py`).

Python dictionaries are modelled as insertion-ordered association lists with
unique keys (`dictLookup` / `dictInsert` / `dictDelete`); JSON values as the
inductive `Json`; the filesystem of per-session record files as an association
list from file stem to `Json`; raised exceptions as `Except` / `Option`
results.  Fresh UUIDs and clock readings (`datetime.now().isoformat()`) are
supplied as explicit oracle arguments.
-/

namespace ChatbotTui

/-- A chat message: dataclass `Message` of `session.py` (fields in source
order: `role`, `content`, `timestamp`). -/
structure Message where
  role : String
  content : String
  timestamp : String
deriving DecidableEq, Repr

/-- JSON-like values: the shape of the Python dicts produced by `to_dict`
and consumed by `from_dict` / `json.load`. -/
inductive Json where
  | null : Json
  | str : String → Json
  | arr : List Json → Json
  | obj : List (String × Json) → Json

/-- Lookup in an insertion-ordered association list, as Python `d[k]` /
`k in d` on a `dict`. -/
def dictLookup {α : Type} : List (String × α) → String → Option α
  | [], _ => none
  | (k, v) :: rest, key => if k = key then some v else dictLookup rest key

/-- Python `d[k] = v` on a `dict`: updating an existing key keeps its
position, a new key is appended at the end. -/
def dictInsert {α : Type} : List (String × α) → String → α → List (String × α)
  | [], key, v => [(key, v)]
  | (k, w) :: rest, key, v =>
    if k = key then (k, v) :: rest else (k, w) :: dictInsert rest key v

/-- Python `del d[k]` (a no-op here when the key is absent, which also models
`if session_file.exists(): session_file.unlink()`). -/
def dictDelete {α : Type} : List (String × α) → String → List (String × α)
  | [], _ => []
  | (k, w) :: rest, key => if k = key then rest else (k, w) :: dictDelete rest key

/-- Field access on a JSON object: Python `data[k]` / `data.get(k)`. -/
def Json.getField : Json → String → Option Json
  | .obj fields, key => dictLookup fields key
  | _, _ => none

/-- `data[k]` expected to be a string. -/
def Json.getStr (j : Json) (k : String) : Option String :=
  match j.getField k with
  | some (.str s) => some s
  | _ => none

/-- `Message.to_dict`: `asdict(self)`, fields in dataclass order. -/
def Message.to_dict (m : Message) : Json :=
  .obj [("role", .str m.role), ("content", .str m.content),
        ("timestamp", .str m.timestamp)]

/-- `Message.from_dict`: reads `data["role"]`, `data["content"]`,
`data["timestamp"]`; a missing key is a raised `KeyError`, modelled as
`none`. -/
def Message.from_dict (j : Json) : Option Message := do
  let role ← j.getStr "role"
  let content ← j.getStr "content"
  let timestamp ← j.getStr "timestamp"
  pure { role := role, content := content, timestamp := timestamp }

/-- A chat session: dataclass `Session` of `session.py`. -/
structure Session where
  id : String
  messages : List Message
  created_at : String
  system_prompt : Option String
deriving DecidableEq, Repr

/-- `Session.add_message`: appends to `self.messages`. -/
def Session.add_message (s : Session) (m : Message) : Session :=
  { s with messages := s.messages ++ [m] }

/-- Encoding of an optional string field (`None` serializes to JSON null). -/
def optStrToJson : Option String → Json
  | none => .null
  | some s => .str s

/-- `Session.to_dict`. -/
def Session.to_dict (s : Session) : Json :=
  .obj [("id", .str s.id),
        ("messages", .arr (s.messages.map Message.to_dict)),
        ("created_at", .str s.created_at),
        ("system_prompt", optStrToJson s.system_prompt)]

/-- Reading `data.get("system_prompt")`: an absent key or a JSON null both
give Python `None`; a string gives that string; any other shape is not
produced by `to_dict` and is rejected. -/
def jsonToOptStr : Option Json → Option (Option String)
  | none => some none
  | some .null => some none
  | some (.str s) => some (some s)
  | some _ => none

/-- `Session.from_dict`. -/
def Session.from_dict (j : Json) : Option Session := do
  let id ← j.getStr "id"
  let msgsJson ← match j.getField "messages" with
    | some (.arr xs) => some xs
    | _ => none
  let messages ← msgsJson.mapM Message.from_dict
  let created_at ← j.getStr "created_at"
  let system_prompt ← jsonToOptStr (j.getField "system_prompt")
  pure { id := id, messages := messages, created_at := created_at,
         system_prompt := system_prompt }

/-- An API-facing `{role, content}` pair. -/
structure ApiMessage where
  role : String
  content : String
deriving DecidableEq, Repr

/-- Projection of a stored message to its API shape. -/
def Message.toApi (m : Message) : ApiMessage :=
  { role := m.role, content := m.content }

/-- `Session.get_messages_for_api`: builds a fresh list of `{role, content}`
pairs and, when `self.system_prompt` is truthy (non-`None` and non-empty,
Python `if self.system_prompt:`), prepends a synthetic `system` entry. -/
def Session.get_messages_for_api (s : Session) : List ApiMessage :=
  let messages := s.messages.map Message.toApi
  match s.system_prompt with
  | some p => if p = "" then messages else { role := "system", content := p } :: messages
  | none => messages

/-- State of a `SessionManager` (`session.py`): the in-memory id → session
dict, the `current_session` reference, and the `sessions_dir` contents as an
id → JSON-record map (one `<id>.json` file per record). -/
structure ManagerState where
  sessions : List (String × Session)
  current : Option Session
  disk : List (String × Json)

/-- `SessionManager.create_session`: builds a fresh `Session` (uuid and
`datetime.now().isoformat()` supplied as oracle arguments `freshId`, `ts`),
stores it in the dict and makes it current.  Not persisted. -/
def create_session (st : ManagerState) (system_prompt : Option String)
    (freshId ts : String) : Session × ManagerState :=
  let s : Session := { id := freshId, messages := [], created_at := ts,
                       system_prompt := system_prompt }
  (s, { st with sessions := dictInsert st.sessions freshId s, current := some s })

/-- The comparator realised by `sessions.sort(key=lambda s: s.created_at,
reverse=True)`: `a` may come before `b` iff `b.created_at ≤ a.created_at`. -/
def byCreatedAtDesc (a b : Session) : Prop :=
  b.created_at ≤ a.created_at

instance : DecidableRel byCreatedAtDesc := fun a b =>
  decidable_of_iff (b.created_at.toList ≤ a.created_at.toList)
    String.le_iff_toList_le.symm

instance : IsTotal Session byCreatedAtDesc :=
  ⟨fun a b => (le_total a.created_at b.created_at).symm⟩

instance : IsTrans Session byCreatedAtDesc :=
  ⟨fun _ _ _ hab hbc => le_trans hbc hab⟩

/-- `SessionManager.list_sessions`: the dict's values (insertion order),
stably sorted by `created_at` descending — Python's `list.sort` is stable,
so equal keys keep their relative order. -/
def list_sessions (st : ManagerState) : List Session :=
  List.insertionSort byCreatedAtDesc (st.sessions.map Prod.snd)

/-- `SessionManager.get_session`: raises `KeyError` when the id is not in
the in-memory dict (never touches the disk). -/
def get_session (st : ManagerState) (session_id : String) : Except String Session :=
  match dictLookup st.sessions session_id with
  | none => .error ("Session " ++ session_id ++ " not found")
  | some s => .ok s

/-- `SessionManager.switch_to_session`: `self.current_session =
self.get_session(session_id)`; the `KeyError` propagates. -/
def switch_to_session (st : ManagerState) (session_id : String) :
    Except String ManagerState :=
  match get_session st session_id with
  | .error e => .error e
  | .ok s => .ok { st with current := some s }

/-- `SessionManager.delete_session`: checks membership, unlinks the record
file if present, removes the dict entry, and reassigns `current_session`
when the deleted id was current (first remaining dict value, or a brand-new
session created with oracle `freshId`/`ts`). -/
def delete_session (st : ManagerState) (session_id freshId ts : String) :
    Except String ManagerState :=
  match dictLookup st.sessions session_id with
  | none => .error ("Session " ++ session_id ++ " not found")
  | some _ =>
    let st1 : ManagerState :=
      { st with disk := dictDelete st.disk session_id,
                sessions := dictDelete st.sessions session_id }
    match st1.current with
    | some c =>
      if c.id = session_id then
        match st1.sessions with
        | [] => .ok (create_session st1 none freshId ts).2
        | (_, s0) :: _ => .ok { st1 with current := some s0 }
      else .ok st1
    | none => .ok st1

/-- `SessionManager.save_session`: `json.dump(session.to_dict(), ...)` into
`<session.id>.json`, overwriting any prior record. -/
def save_session (st : ManagerState) (s : Session) : ManagerState :=
  { st with disk := dictInsert st.disk s.id (Session.to_dict s) }

/-- `SessionManager.load_session`: reads `<session_id>.json` (missing file:
`KeyError`), deserializes it (a parse failure propagates), and stores the
result in the dict under the *argument* id. -/
def load_session (st : ManagerState) (session_id : String) :
    Except String (Session × ManagerState) :=
  match dictLookup st.disk session_id with
  | none => .error ("Session file for " ++ session_id ++ " not found")
  | some data =>
    match Session.from_dict data with
    | none => .error "malformed session record"
    | some s =>
      .ok (s, { st with sessions := dictInsert st.sessions session_id s })

/-- One step of the `load_all_sessions` scan: a record that parses is
inserted under its own `session.id`; a corrupted one is skipped. -/
def loadFoldStep (acc : List (String × Session)) (kv : String × Json) :
    List (String × Session) :=
  match Session.from_dict kv.2 with
  | none => acc
  | some s => dictInsert acc s.id s

/-- `SessionManager.load_all_sessions`: every record that parses is inserted
under its own `session.id` (corrupted records are skipped), then
`current_session` is set to the head of `list_sessions()` when non-empty. -/
def load_all_sessions (st : ManagerState) : ManagerState :=
  let sessions := st.disk.foldl loadFoldStep st.sessions
  let st1 := { st with sessions := sessions }
  match list_sessions st1 with
  | [] => st1
  | s0 :: _ => { st1 with current := some s0 }

/-- `SessionManager.__init__`: start from an empty dict over the given
directory contents, `load_all_sessions()`, then create an initial session if
the dict is still empty. -/
def managerInit (disk : List (String × Json)) (freshId ts : String) : ManagerState :=
  let st1 := load_all_sessions { sessions := [], current := none, disk := disk }
  if st1.sessions = [] then (create_session st1 none freshId ts).2 else st1

/-- The classified failures `LLMClient.chat_stream` can surface, and the
message each one is wrapped in (`llm.py`, the three `except` clauses all
re-raise `LLMError`). -/
inductive StreamFailureKind where
  | apiError (msg : String)
  | timedOut (msg : String)
  | unexpected (msg : String)
deriving DecidableEq, Repr

/-- The `LLMError` message produced for each failure kind. -/
def classifyError : StreamFailureKind → String
  | .apiError m => "API error: " ++ m
  | .timedOut m => "Request timed out: " ++ m
  | .unexpected m => "Unexpected error: " ++ m

/-- Behaviour of one streamed completion: the `delta.content` payloads of
the chunks the server produced before the stream ended (`none` = a chunk
with no choices or a null payload), and whether the stream then raised
(`none` = clean exhaustion; failures before the first chunk have
`chunks = []`). -/
structure StreamBehavior where
  chunks : List (Option String)
  failure : Option StreamFailureKind

/-- The fragments `chat_stream` actually yields: `if chunk.choices and
chunk.choices[0].delta.content:` keeps exactly the non-null, non-empty
payloads (Python truthiness drops `""` at the yield). -/
def chat_stream_yields (chunks : List (Option String)) : List String :=
  chunks.filterMap fun c =>
    match c with
    | some s => if s = "" then none else some s
    | none => none

/-- The reference accumulation of §4.3: nulls skipped, an empty fragment
appended as zero characters. -/
def specConcat (chunks : List (Option String)) : String :=
  chunks.foldl (fun a c => a ++ c.getD "") ""

/-- Result of one chat turn: the manager state afterwards and the error
message displayed, if any. -/
structure TurnResult where
  state : ManagerState
  error : Option String

/-- One chat turn of `run_chat_loop` (`main.py`): append the user message to
the current session and save it; then stream, accumulating
`assistant_content += chunk`; on a clean stream end append-and-save an
assistant message iff the accumulated content is non-empty; on `LLMError`
display one error and change nothing further.  `current_session` is a
reference into the dict, so mutating it updates the dict entry (keyed by its
id) as well.  `current_session` is never `None` once the manager is
constructed; the `none` branch mirrors the `AttributeError` Python would
raise there. -/
def run_chat_turn (st : ManagerState) (userText userTs assistantTs : String)
    (stream : StreamBehavior) : TurnResult :=
  match st.current with
  | none => { state := st, error := some "AttributeError" }
  | some cur =>
    let userMsg : Message := { role := "user", content := userText, timestamp := userTs }
    let cur1 := cur.add_message userMsg
    let st1 := save_session
      { st with sessions := dictInsert st.sessions cur.id cur1, current := some cur1 }
      cur1
    match stream.failure with
    | some k => { state := st1, error := some ("LLM error: " ++ classifyError k) }
    | none =>
      let assistant_content :=
        (chat_stream_yields stream.chunks).foldl (fun a c => a ++ c) ""
      if assistant_content = "" then { state := st1, error := none }
      else
        let aMsg : Message := { role := "assistant", content := assistant_content,
                                timestamp := assistantTs }
        let cur2 := cur1.add_message aMsg
        { state := save_session
            { st1 with sessions := dictInsert st1.sessions cur.id cur2,
                       current := some cur2 }
            cur2,
          error := none }

/-- Every dict entry's stored session carries the entry's key as its `id`.
This holds for every state the manager reaches through its own operations
(construction, `create`, `switch`, `delete`), which only ever insert a
session under its own `id`. -/
def keysConsistent (st : ManagerState) : Prop :=
  ∀ p ∈ st.sessions, (Prod.snd p).id = p.1

/-- `current_session` is set and refers to a session present in the
in-memory dict (Python: the pointed-to object is a dict value; with the
key/`id` consistency above this is lookup by its `id`). -/
def currentValid (st : ManagerState) : Prop :=
  match st.current with
  | some c => dictLookup st.sessions c.id = some c
  | none => False

instance (st : ManagerState) : Decidable (currentValid st) :=
  match h : st.current with
  | some c =>
    decidable_of_iff (dictLookup st.sessions c.id = some c)
      (by unfold currentValid; rw [h])
  | none => decidable_of_iff False (by unfold currentValid; rw [h])

/-- The state invariant of `SessionManager` after construction: unique dict
keys, key/`id` consistency, at least one session, and a valid current
session. -/
def goodState (st : ManagerState) : Prop :=
  (st.sessions.map Prod.fst).Nodup ∧ keysConsistent st ∧
    st.sessions ≠ [] ∧ currentValid st

instance (st : ManagerState) : Decidable (keysConsistent st) := by
  unfold keysConsistent; exact List.decidableBAll _ _

instance (st : ManagerState) : Decidable (goodState st) := by
  unfold goodState; infer_instance

/-! ### Association-list (Python dict) lemmas -/

theorem dictLookup_insert_self {α : Type} (d : List (String × α)) (k : String) (v : α) :
    dictLookup (dictInsert d k v) k = some v := by
  induction d with
  | nil => simp [dictInsert, dictLookup]
  | cons q rest ih =>
    obtain ⟨a, b⟩ := q
    by_cases h : a = k
    · simp [dictInsert, dictLookup, h]
    · simp [dictInsert, dictLookup, h, ih]

theorem dictLookup_insert_ne {α : Type} (d : List (String × α)) (k k' : String) (v : α)
    (h : k' ≠ k) : dictLookup (dictInsert d k v) k' = dictLookup d k' := by
  induction d with
  | nil =>
    simp only [dictInsert, dictLookup]
    rw [if_neg (fun hh : k = k' => h hh.symm)]
  | cons q rest ih =>
    obtain ⟨a, b⟩ := q
    have hk : ¬ k = k' := fun hh => h hh.symm
    by_cases ha : a = k
    · have ha' : a ≠ k' := fun hh => h (hh.symm.trans ha)
      simp [dictInsert, dictLookup, ha, ha', hk]
    · by_cases ha' : a = k'
      · simp [dictInsert, dictLookup, ha, ha', h, hk]
      · simp [dictInsert, dictLookup, ha, ha', ih]

theorem mem_dictInsert {α : Type} {d : List (String × α)} {k : String} {v : α}
    {p : String × α} (h : p ∈ dictInsert d k v) : p ∈ d ∨ p = (k, v) := by
  induction d with
  | nil => simpa [dictInsert] using h
  | cons q rest ih =>
    obtain ⟨a, b⟩ := q
    by_cases ha : a = k
    · rcases (by simpa [dictInsert, ha] using h : p = (a, v) ∨ p ∈ rest) with h1 | h1
      · exact Or.inr (by simp [h1, ha])
      · exact Or.inl (List.mem_cons_of_mem _ h1)
    · rcases (by simpa [dictInsert, ha] using h : p = (a, b) ∨ p ∈ dictInsert rest k v) with h1 | h1
      · exact Or.inl (by simp [h1])
      · rcases ih h1 with h2 | h2
        · exact Or.inl (List.mem_cons_of_mem _ h2)
        · exact Or.inr h2

theorem keys_dictInsert {α : Type} (d : List (String × α)) (k : String) (v : α) :
    (dictInsert d k v).map Prod.fst =
      if k ∈ d.map Prod.fst then d.map Prod.fst else d.map Prod.fst ++ [k] := by
  induction d with
  | nil => simp [dictInsert]
  | cons q rest ih =>
    obtain ⟨a, b⟩ := q
    by_cases ha : a = k
    · simp [dictInsert, ha]
    · have ha' : ¬ k = a := fun hh => ha hh.symm
      by_cases hk : k ∈ rest.map Prod.fst <;>
        simp [dictInsert, ha, ha', ih, hk]

theorem nodup_keys_dictInsert {α : Type} {d : List (String × α)} {k : String} {v : α}
    (h : (d.map Prod.fst).Nodup) : ((dictInsert d k v).map Prod.fst).Nodup := by
  rw [keys_dictInsert]
  by_cases hk : k ∈ d.map Prod.fst
  · simpa [hk] using h
  · rw [if_neg hk]
    exact List.Nodup.append h (List.nodup_singleton k)
      (by simpa [List.disjoint_singleton] using hk)

theorem dictInsert_ne_nil {α : Type} (d : List (String × α)) (k : String) (v : α) :
    dictInsert d k v ≠ [] := by
  cases d with
  | nil => simp [dictInsert]
  | cons q rest =>
    obtain ⟨a, b⟩ := q
    by_cases ha : a = k <;> simp [dictInsert, ha]

theorem dictInsert_of_not_mem {α : Type} {d : List (String × α)} {k : String} (v : α)
    (h : k ∉ d.map Prod.fst) : dictInsert d k v = d ++ [(k, v)] := by
  induction d with
  | nil => simp [dictInsert]
  | cons q rest ih =>
    obtain ⟨a, b⟩ := q
    have ha : a ≠ k := fun hh => h (by simp [hh.symm])
    simp [dictInsert, ha, ih (fun hh => h (by simp [hh]))]

theorem dictDelete_sublist {α : Type} (d : List (String × α)) (k : String) :
    List.Sublist (dictDelete d k) d := by
  induction d with
  | nil => simp [dictDelete]
  | cons q rest ih =>
    obtain ⟨a, b⟩ := q
    by_cases ha : a = k
    · rw [show dictDelete ((a, b) :: rest) k = rest by simp [dictDelete, ha]]
      exact List.sublist_cons_self (a, b) rest
    · simpa [dictDelete, ha] using List.Sublist.cons₂ (a, b) ih

theorem dictLookup_delete_ne {α : Type} (d : List (String × α)) (k k' : String)
    (h : k' ≠ k) : dictLookup (dictDelete d k) k' = dictLookup d k' := by
  induction d with
  | nil => simp [dictDelete]
  | cons q rest ih =>
    obtain ⟨a, b⟩ := q
    have hk : ¬ k = k' := fun hh => h hh.symm
    by_cases ha : a = k
    · have ha' : a ≠ k' := fun hh => h (hh.symm.trans ha)
      simp [dictDelete, dictLookup, ha, ha', hk]
    · by_cases ha' : a = k'
      · simp [dictDelete, dictLookup, ha, ha', h, hk]
      · simp [dictDelete, dictLookup, ha, ha', ih]

theorem dictLookup_mem {α : Type} {d : List (String × α)} {k : String} {v : α}
    (h : dictLookup d k = some v) : (k, v) ∈ d := by
  induction d with
  | nil => simp [dictLookup] at h
  | cons q rest ih =>
    obtain ⟨a, b⟩ := q
    by_cases ha : a = k
    · have hb : b = v := by simpa [dictLookup, ha] using h
      subst ha; subst hb
      exact List.mem_cons_self ..
    · exact List.mem_cons_of_mem _ (ih (by simpa [dictLookup, ha] using h))

theorem dictLookup_of_mem_nodup {α : Type} {d : List (String × α)} {k : String} {v : α}
    (hd : (d.map Prod.fst).Nodup) (h : (k, v) ∈ d) : dictLookup d k = some v := by
  induction d with
  | nil => simp at h
  | cons q rest ih =>
    obtain ⟨a, b⟩ := q
    rcases List.mem_cons.mp h with h1 | h1
    · have : a = k ∧ b = v :=
        ⟨congrArg Prod.fst h1.symm, congrArg Prod.snd h1.symm⟩
      simp [dictLookup, this.1, this.2]
    · have ha : a ≠ k := by
        intro hh
        rw [List.map_cons, List.nodup_cons] at hd
        exact hd.1 (hh ▸ List.mem_map.mpr ⟨(k, v), h1, rfl⟩)
      have hrest : (rest.map Prod.fst).Nodup := by
        rw [List.map_cons, List.nodup_cons] at hd
        exact hd.2
      simp [dictLookup, ha, ih hrest h1]

theorem dictLookup_ne_nil {α : Type} {d : List (String × α)} {k : String} {v : α}
    (h : dictLookup d k = some v) : d ≠ [] := by
  intro hd; rw [hd] at h; simp [dictLookup] at h

/-! ### Stream accumulation lemmas -/

theorem append_eq_empty_iff (a b : String) : a ++ b = "" ↔ a = "" ∧ b = "" := by
  constructor
  · intro h
    have hd : a.data ++ b.data = [] := by
      have := congrArg String.data h
      simpa [String.data_append] using this
    rcases List.append_eq_nil.mp hd with ⟨ha, hb⟩
    exact ⟨String.ext ha, String.ext hb⟩
  · rintro ⟨rfl, rfl⟩
    rfl

theorem specConcat_foldl (cs : List (Option String)) (acc : String) :
    cs.foldl (fun a c => a ++ c.getD "") acc = acc ++ specConcat cs := by
  induction cs generalizing acc with
  | nil => simp [specConcat, String.append_empty]
  | cons c rest ih =>
    show rest.foldl _ (acc ++ c.getD "") = acc ++ specConcat (c :: rest)
    rw [ih (acc ++ c.getD "")]
    have : specConcat (c :: rest) = c.getD "" ++ specConcat rest := by
      show rest.foldl _ ("" ++ c.getD "") = _
      rw [ih ("" ++ c.getD ""), String.empty_append]
    rw [this, String.append_assoc]

theorem specConcat_cons (c : Option String) (rest : List (Option String)) :
    specConcat (c :: rest) = c.getD "" ++ specConcat rest := by
  show rest.foldl _ ("" ++ c.getD "") = _
  rw [specConcat_foldl rest ("" ++ c.getD ""), String.empty_append]

theorem yields_foldl_eq (chunks : List (Option String)) (acc : String) :
    (chat_stream_yields chunks).foldl (fun a c => a ++ c) acc =
      chunks.foldl (fun a c => a ++ c.getD "") acc := by
  induction chunks generalizing acc with
  | nil => rfl
  | cons c rest ih =>
    cases c with
    | none =>
      show (chat_stream_yields rest).foldl _ acc = rest.foldl _ (acc ++ "")
      rw [String.append_empty, ih]
    | some s =>
      by_cases hs : s = ""
      · subst hs
        show (chat_stream_yields rest).foldl _ acc = rest.foldl _ (acc ++ "")
        rw [String.append_empty, ih]
      · show ((chat_stream_yields (some s :: rest)).foldl (fun a c => a ++ c) acc) = _
        have : chat_stream_yields (some s :: rest) = s :: chat_stream_yields rest := by
          simp [chat_stream_yields, hs]
        rw [this]
        show (chat_stream_yields rest).foldl _ (acc ++ s) = rest.foldl _ (acc ++ s)
        exact ih (acc ++ s)

theorem assistant_content_eq (chunks : List (Option String)) :
    (chat_stream_yields chunks).foldl (fun a c => a ++ c) "" = specConcat chunks :=
  yields_foldl_eq chunks ""

theorem specConcat_ne_empty {chunks : List (Option String)} {s : String}
    (hmem : some s ∈ chunks) (hs : s ≠ "") : specConcat chunks ≠ "" := by
  induction chunks with
  | nil => simp at hmem
  | cons c rest ih =>
    rw [specConcat_cons]
    rcases List.mem_cons.mp hmem with h1 | h1
    · rw [← h1]
      intro hc
      exact hs ((append_eq_empty_iff _ _).mp hc).1
    · intro hc
      exact ih h1 ((append_eq_empty_iff _ _).mp hc).2

/-! ### Serialization round-trip lemmas -/

theorem message_roundtrip (m : Message) :
    Message.from_dict (Message.to_dict m) = some m := by
  rfl

theorem mapM_loop_from_to_dict (ms acc : List Message) :
    List.mapM.loop Message.from_dict (ms.map Message.to_dict) acc =
      some (acc.reverse ++ ms) := by
  induction ms generalizing acc with
  | nil => simp [List.mapM.loop]
  | cons m rest ih =>
    rw [List.map_cons]
    simp only [List.mapM.loop, message_roundtrip, Option.some_bind, ih]
    simp

theorem mapM_from_to_dict (ms : List Message) :
    (ms.map Message.to_dict).mapM Message.from_dict = some ms := by
  simpa using mapM_loop_from_to_dict ms []

theorem session_roundtrip (s : Session) :
    Session.from_dict (Session.to_dict s) = some s := by
  have h1 : (Session.to_dict s).getField "id" = some (.str s.id) := rfl
  have h2 : (Session.to_dict s).getField "messages" =
      some (.arr (s.messages.map Message.to_dict)) := rfl
  have h3 : (Session.to_dict s).getField "created_at" = some (.str s.created_at) := rfl
  have h4 : jsonToOptStr ((Session.to_dict s).getField "system_prompt") =
      some s.system_prompt := by
    cases h : s.system_prompt <;>
      simp [Session.to_dict, Json.getField, dictLookup, jsonToOptStr, optStrToJson, h]
  simp only [Session.from_dict, Json.getStr, h1, h2, h3, h4, Option.some_bind]
  simp [mapM_loop_from_to_dict]

/-! ### Claim C3 — save/load round-trip -/

/-- C3: for every session `s`, `save_session s` followed by
`load_session s.id` after clearing the in-memory entry returns a `Session`
equal to `s` in every field (`id`, `messages` with order/role/content/
timestamp, `created_at`, `system_prompt`): the serialize/deserialize
round-trip is the identity, and the reloaded session is re-inserted in the
map. -/
theorem save_load_roundtrip (st : ManagerState) (s : Session) :
    (let st1 := save_session st s
     let st2 : ManagerState := { st1 with sessions := dictDelete st1.sessions s.id }
     load_session st2 s.id =
       .ok (s, { st2 with sessions := dictInsert st2.sessions s.id s })) := by
  simp only [load_session, save_session, dictLookup_insert_self, session_roundtrip]

/-! ### Claim C5 — API projection with a system prompt -/

/-- C5: on a session with non-empty `system_prompt = p` and exactly two
stored messages, `get_messages_for_api` returns exactly three entries: the
synthetic `{system, p}` first, then the two stored messages as
`{role, content}` pairs in their original order.  The projection is a pure
function of the session (it builds a fresh list), so the session's
`messages` list is left unchanged. -/
theorem api_projection_with_prompt (s : Session) (p : String) (m1 m2 : Message)
    (hp : s.system_prompt = some p) (hne : p ≠ "") (hm : s.messages = [m1, m2]) :
    s.get_messages_for_api =
      [{ role := "system", content := p },
       { role := m1.role, content := m1.content },
       { role := m2.role, content := m2.content }] := by
  simp [Session.get_messages_for_api, hp, hne, hm, Message.toApi]

/-- Witness for C5 at a concrete session. -/
theorem api_projection_with_prompt_witness :
    Session.get_messages_for_api
        ⟨"s1", [⟨"user", "Hello", "t1"⟩, ⟨"assistant", "Hi there", "t2"⟩],
         "2025-02-24T12:00:00", some "Be helpful"⟩ =
      [⟨"system", "Be helpful"⟩, ⟨"user", "Hello"⟩, ⟨"assistant", "Hi there"⟩] :=
  api_projection_with_prompt _ "Be helpful"
    ⟨"user", "Hello", "t1"⟩ ⟨"assistant", "Hi there", "t2"⟩ rfl (by decide) rfl

/-! ### Claim C6 — synthetic system entry vs. existing system history -/

/-- C6 counterexample: on a session whose stored messages already contain a
`system`-role message and whose `system_prompt` is set, `get_messages_for_api`
*does* prepend the synthetic system entry again — the result carries two
`system` entries, refuting "never re-added when the history already contains
one". -/
theorem system_prompt_readded_counterexample :
    Session.get_messages_for_api
        ⟨"s", [⟨"system", "P", "t0"⟩, ⟨"user", "hi", "t1"⟩], "T", some "P"⟩ =
      [⟨"system", "P"⟩, ⟨"system", "P"⟩, ⟨"user", "hi"⟩] ∧
    (Session.get_messages_for_api
        ⟨"s", [⟨"system", "P", "t0"⟩, ⟨"user", "hi", "t1"⟩], "T", some "P"⟩).countP
        (fun m => m.role == "system") = 2 := by
  exact ⟨by decide, by decide⟩

/-- C6 amended: the synthetic system entry is never stored in `messages`
(the projection is pure), but it is prepended whenever `system_prompt` is
non-null and non-empty, regardless of whether the stored history already
contains a `system`-role message. -/
theorem system_prompt_always_prepended (s : Session) (p : String)
    (hp : s.system_prompt = some p) (hne : p ≠ "") :
    s.get_messages_for_api =
      { role := "system", content := p } :: s.messages.map Message.toApi := by
  simp [Session.get_messages_for_api, hp, hne]

/-- Witness for the amended C6, at a session whose history already holds a
`system`-role message. -/
theorem system_prompt_always_prepended_witness :
    Session.get_messages_for_api ⟨"s", [⟨"system", "P", "t0"⟩], "T", some "P"⟩ =
      { role := "system", content := "P" } ::
        ([⟨"system", "P", "t0"⟩] : List Message).map Message.toApi :=
  system_prompt_always_prepended _ "P" rfl (by decide)

/-! ### Claim C9 — empty-string system prompt -/

/-- C9: a session whose `system_prompt` is the empty string (or `None`)
projects only its stored messages, with no synthetic system entry; the
synthetic entry is prepended exactly when `system_prompt` is non-null and
non-empty (Python truthiness of `if self.system_prompt:`). -/
theorem empty_prompt_not_prepended (s : Session) :
    (s.system_prompt = some "" →
      s.get_messages_for_api = s.messages.map Message.toApi) ∧
    (s.system_prompt = none →
      s.get_messages_for_api = s.messages.map Message.toApi) ∧
    (∀ p, s.system_prompt = some p → p ≠ "" →
      s.get_messages_for_api =
        { role := "system", content := p } :: s.messages.map Message.toApi) := by
  refine ⟨fun h => ?_, fun h => ?_, fun p hp hne => ?_⟩ <;>
    simp [Session.get_messages_for_api, *]

/-- Witness for C9 at a concrete session with `system_prompt = ""`. -/
theorem empty_prompt_not_prepended_witness :
    Session.get_messages_for_api ⟨"s", [⟨"user", "hi", "t1"⟩], "T", some ""⟩ =
      ([⟨"user", "hi", "t1"⟩] : List Message).map Message.toApi :=
  (empty_prompt_not_prepended _).1 rfl

/-! ### Claim C10 — load keys the map by the argument id -/

/-- C10: a successful `load_session sid` inserts the deserialized session
into the in-memory map under the *argument* `sid` — nothing ties the
record's internal `id` field to that key, so the map may map `sid` to a
session whose own `id` differs. -/
theorem load_inserts_under_argument_id (st : ManagerState) (sid : String)
    (data : Json) (s : Session) (hd : dictLookup st.disk sid = some data)
    (hp : Session.from_dict data = some s) :
    load_session st sid =
      .ok (s, { st with sessions := dictInsert st.sessions sid s }) ∧
    dictLookup (dictInsert st.sessions sid s) sid = some s := by
  constructor
  · simp only [load_session, hd, hp]
  · exact dictLookup_insert_self _ _ _

/-- Witness for C10: the record file is named `k` but its internal id is
`j`; after `load_session "k"` the map binds key `"k"` to the session whose
`id` is `"j"`. -/
theorem load_inserts_under_argument_id_witness :
    load_session ⟨[], none, [("k", Session.to_dict ⟨"j", [], "T", none⟩)]⟩ "k" =
      .ok ((⟨"j", [], "T", none⟩ : Session),
        { (⟨[], none, [("k", Session.to_dict ⟨"j", [], "T", none⟩)]⟩ : ManagerState) with
          sessions := dictInsert [] "k" ⟨"j", [], "T", none⟩ }) ∧
    dictLookup (dictInsert [] "k" (⟨"j", [], "T", none⟩ : Session)) "k" =
      some ⟨"j", [], "T", none⟩ ∧
    (⟨"j", [], "T", none⟩ : Session).id ≠ "k" :=
  ⟨(load_inserts_under_argument_id
      ⟨[], none, [("k", Session.to_dict ⟨"j", [], "T", none⟩)]⟩ "k"
      (Session.to_dict ⟨"j", [], "T", none⟩) ⟨"j", [], "T", none⟩ rfl rfl).1,
   (load_inserts_under_argument_id
      ⟨[], none, [("k", Session.to_dict ⟨"j", [], "T", none⟩)]⟩ "k"
      (Session.to_dict ⟨"j", [], "T", none⟩) ⟨"j", [], "T", none⟩ rfl rfl).2, by decide⟩

/-! ### Claim C1 — a failed stream leaves only the user message -/

/-- C1: when the completion stream raises (while opening it or after any
number of fragments), the turn leaves the session with the user's message
appended and no assistant message (the new message list is exactly the old
one plus the user entry), the partially accumulated buffer is discarded, the
in-memory map and the durable record for the session reflect only the user
message (committed before the request), and a single classified error is
surfaced. -/
theorem stream_failure_preserves_user_only (st : ManagerState) (cur : Session)
    (userText userTs aTs : String) (chunks : List (Option String))
    (k : StreamFailureKind) (hcur : st.current = some cur) :
    (run_chat_turn st userText userTs aTs ⟨chunks, some k⟩).state.current =
        some (cur.add_message ⟨"user", userText, userTs⟩) ∧
    (cur.add_message ⟨"user", userText, userTs⟩).messages =
        cur.messages ++ [⟨"user", userText, userTs⟩] ∧
    dictLookup (run_chat_turn st userText userTs aTs ⟨chunks, some k⟩).state.sessions
        cur.id = some (cur.add_message ⟨"user", userText, userTs⟩) ∧
    dictLookup (run_chat_turn st userText userTs aTs ⟨chunks, some k⟩).state.disk
        cur.id = some (Session.to_dict (cur.add_message ⟨"user", userText, userTs⟩)) ∧
    (run_chat_turn st userText userTs aTs ⟨chunks, some k⟩).error =
        some ("LLM error: " ++ classifyError k) := by
  simp [run_chat_turn, hcur, save_session, Session.add_message, dictLookup_insert_self]

/-- Witness for C1: a concrete turn whose stream times out after one
fragment. -/
theorem stream_failure_preserves_user_only_witness :
    (run_chat_turn ⟨[("s", ⟨"s", [], "T", none⟩)], some ⟨"s", [], "T", none⟩, []⟩
        "hi" "t1" "t2" ⟨[some "He"], some (.timedOut "deadline")⟩).state.current =
      some (Session.add_message ⟨"s", [], "T", none⟩ ⟨"user", "hi", "t1"⟩) ∧
    (run_chat_turn ⟨[("s", ⟨"s", [], "T", none⟩)], some ⟨"s", [], "T", none⟩, []⟩
        "hi" "t1" "t2" ⟨[some "He"], some (.timedOut "deadline")⟩).error =
      some ("LLM error: " ++ classifyError (.timedOut "deadline")) :=
  ⟨(stream_failure_preserves_user_only
      ⟨[("s", ⟨"s", [], "T", none⟩)], some ⟨"s", [], "T", none⟩, []⟩
      ⟨"s", [], "T", none⟩ "hi" "t1" "t2" [some "He"] (.timedOut "deadline") rfl).1,
   (stream_failure_preserves_user_only
      ⟨[("s", ⟨"s", [], "T", none⟩)], some ⟨"s", [], "T", none⟩, []⟩
      ⟨"s", [], "T", none⟩ "hi" "t1" "t2" [some "He"] (.timedOut "deadline")
      rfl).2.2.2.2⟩

/-! ### Claim C4 — fragment accumulation -/

/-- C4: on a cleanly ending stream the committed assistant content equals
the concatenation, in arrival order, of the fragments with null payloads
skipped and empty-string fragments contributing zero characters
(`specConcat`); the turn appends no assistant message exactly when that
concatenation is empty; any non-empty fragment by itself rules out the
no-append case; and the stream "Hel", null, "lo", "", "!" accumulates to
exactly "Hello!". -/
theorem accumulation_matches_spec (st : ManagerState) (cur : Session)
    (userText userTs aTs : String) (chunks : List (Option String))
    (hcur : st.current = some cur) :
    (specConcat chunks ≠ "" →
      (run_chat_turn st userText userTs aTs ⟨chunks, none⟩).state.current =
        some { cur with messages :=
          cur.messages ++ [⟨"user", userText, userTs⟩,
                           ⟨"assistant", specConcat chunks, aTs⟩] }) ∧
    (specConcat chunks = "" →
      (run_chat_turn st userText userTs aTs ⟨chunks, none⟩).state.current =
        some { cur with messages := cur.messages ++ [⟨"user", userText, userTs⟩] }) ∧
    (∀ s : String, some s ∈ chunks → s ≠ "" → specConcat chunks ≠ "") ∧
    specConcat [some "Hel", none, some "lo", some "", some "!"] = "Hello!" := by
  refine ⟨fun hne => ?_, fun he => ?_,
    fun s hmem hs => specConcat_ne_empty hmem hs, by decide⟩
  · simp only [run_chat_turn, hcur, save_session, assistant_content_eq]
    rw [if_neg hne]
    simp [Session.add_message]
  · simp only [run_chat_turn, hcur, save_session, assistant_content_eq]
    rw [if_pos he]
    simp [Session.add_message]

/-- Witness for C4: the concrete stream of the spec's example. -/
theorem accumulation_matches_spec_witness :
    (run_chat_turn ⟨[("s", ⟨"s", [], "T", none⟩)], some ⟨"s", [], "T", none⟩, []⟩
        "hi" "t1" "t2"
        ⟨[some "Hel", none, some "lo", some "", some "!"], none⟩).state.current =
      some { (⟨"s", [], "T", none⟩ : Session) with messages :=
        ([] : List Message) ++ [⟨"user", "hi", "t1"⟩,
          ⟨"assistant", specConcat [some "Hel", none, some "lo", some "", some "!"], "t2"⟩] } ∧
    specConcat [some "Hel", none, some "lo", some "", some "!"] = "Hello!" :=
  ⟨(accumulation_matches_spec
      ⟨[("s", ⟨"s", [], "T", none⟩)], some ⟨"s", [], "T", none⟩, []⟩
      ⟨"s", [], "T", none⟩ "hi" "t1" "t2"
      [some "Hel", none, some "lo", some "", some "!"] rfl).1 (by decide),
   (accumulation_matches_spec
      ⟨[("s", ⟨"s", [], "T", none⟩)], some ⟨"s", [], "T", none⟩, []⟩
      ⟨"s", [], "T", none⟩ "hi" "t1" "t2"
      [some "Hel", none, some "lo", some "", some "!"] rfl).2.2.2⟩

/-! ### Claim C7 — list ordering -/

theorem pair_sublist_of_pairwise {α : Type} {r : α → α → Prop} {l : List α}
    {a b : α} (hp : l.Pairwise r) (ha : a ∈ l) (hb : b ∈ l) (hab : a ≠ b)
    (hnr : ¬ r b a) : List.Sublist [a, b] l := by
  induction l with
  | nil => simp at ha
  | cons x xs ih =>
    rcases List.pairwise_cons.mp hp with ⟨hx, hxs⟩
    by_cases hbx : b = x
    · subst hbx
      have ha' : a ∈ xs := by
        rcases List.mem_cons.mp ha with h1 | h1
        · exact absurd h1 hab
        · exact h1
      exact absurd (hx a ha') hnr
    · have hb' : b ∈ xs := by
        rcases List.mem_cons.mp hb with h1 | h1
        · exact absurd h1 hbx
        · exact h1
      by_cases hax : a = x
      · subst hax
        exact List.Sublist.cons₂ a (List.singleton_sublist.mpr hb')
      · have ha' : a ∈ xs := by
          rcases List.mem_cons.mp ha with h1 | h1
          · exact absurd h1 hax
          · exact h1
        exact List.Sublist.cons x (ih hxs ha' hb')

/-- After two creates with fresh ids the dict is the old dict with the two
new entries appended. -/
theorem create_twice_sessions (st : ManagerState) (sp1 sp2 : Option String)
    (id1 id2 t1 t2 : String) (h1 : id1 ∉ st.sessions.map Prod.fst)
    (h2 : id2 ∉ st.sessions.map Prod.fst) (h12 : id1 ≠ id2) :
    ((create_session (create_session st sp1 id1 t1).2 sp2 id2 t2).2).sessions =
      st.sessions ++ [(id1, ⟨id1, [], t1, sp1⟩), (id2, ⟨id2, [], t2, sp2⟩)] := by
  have h2' : id2 ∉ (st.sessions ++
      [(id1, (⟨id1, [], t1, sp1⟩ : Session))]).map Prod.fst := by
    simp only [List.map_append, List.mem_append]
    rintro (h | h)
    · exact h2 h
    · simp at h
      exact h12 h.symm
  simp only [create_session]
  rw [dictInsert_of_not_mem _ h1, dictInsert_of_not_mem _ h2', List.append_assoc]
  rfl

/-- C7 counterexample: two sessions created in immediate succession with
equal `created_at` keep their creation order in `list_sessions` — the
later-created one appears *second*, not first (Python's sort is stable and
no secondary key is applied; the order tracks dict insertion, not any
session attribute such as id — the two conjuncts exhibit id-ascending and
id-descending outcomes of the same rule). -/
theorem list_tie_order_counterexample :
    list_sessions
        (create_session (create_session ⟨[], none, []⟩ none "a-early" "T").2
          none "b-late" "T").2 =
      [⟨"a-early", [], "T", none⟩, ⟨"b-late", [], "T", none⟩] ∧
    list_sessions
        (create_session (create_session ⟨[], none, []⟩ none "z-early" "T").2
          none "a-late" "T").2 =
      [⟨"z-early", [], "T", none⟩, ⟨"a-late", [], "T", none⟩] := by
  exact ⟨by decide, by decide⟩

/-- C7 amended: `list_sessions` is a permutation of the stored sessions,
sorted by `created_at` descending; a session created in immediate succession
with *strictly greater* `created_at` appears before the earlier one; with
equal `created_at` the two keep their creation (dict-insertion) order — a
deterministic tie-break, so repeated calls on the same state return the same
list (list_sessions is a pure function of the state). -/
theorem list_sorted_desc_stable :
    (∀ st : ManagerState, (list_sessions st).Sorted byCreatedAtDesc) ∧
    (∀ st : ManagerState, (list_sessions st).Perm (st.sessions.map Prod.snd)) ∧
    (∀ (st : ManagerState) (sp1 sp2 : Option String) (id1 id2 t1 t2 : String),
      id1 ∉ st.sessions.map Prod.fst → id2 ∉ st.sessions.map Prod.fst →
      id1 ≠ id2 → t1 < t2 →
      List.Sublist [⟨id2, [], t2, sp2⟩, ⟨id1, [], t1, sp1⟩]
        (list_sessions
          (create_session (create_session st sp1 id1 t1).2 sp2 id2 t2).2)) ∧
    (∀ (st : ManagerState) (sp1 sp2 : Option String) (id1 id2 t : String),
      id1 ∉ st.sessions.map Prod.fst → id2 ∉ st.sessions.map Prod.fst →
      id1 ≠ id2 →
      List.Sublist [⟨id1, [], t, sp1⟩, ⟨id2, [], t, sp2⟩]
        (list_sessions
          (create_session (create_session st sp1 id1 t).2 sp2 id2 t).2)) := by
  refine ⟨fun st => List.sorted_insertionSort _ _,
    fun st => List.perm_insertionSort _ _, ?_, ?_⟩
  · intro st sp1 sp2 id1 id2 t1 t2 h1 h2 h12 ht
    have hsess := create_twice_sessions st sp1 sp2 id1 id2 t1 t2 h1 h2 h12
    unfold list_sessions
    apply pair_sublist_of_pairwise (List.sorted_insertionSort byCreatedAtDesc _)
    · rw [List.mem_insertionSort, hsess]
      simp
    · rw [List.mem_insertionSort, hsess]
      simp
    · intro hh
      exact absurd (congrArg Session.created_at hh) (ne_of_gt ht)
    · show ¬ byCreatedAtDesc (⟨id1, [], t1, sp1⟩ : Session) ⟨id2, [], t2, sp2⟩
      unfold byCreatedAtDesc
      simpa using ht
  · intro st sp1 sp2 id1 id2 t h1 h2 h12
    have hsess := create_twice_sessions st sp1 sp2 id1 id2 t t h1 h2 h12
    unfold list_sessions
    apply List.pair_sublist_insertionSort
    · exact le_refl t
    · rw [hsess, List.map_append]
      exact List.sublist_append_right (st.sessions.map Prod.snd) _

/-- Witness for the amended C7: picks concrete sessions with strictly
increasing creation times. -/
theorem list_sorted_desc_stable_witness :
    List.Sublist [(⟨"b", [], "T2", none⟩ : Session), ⟨"a", [], "T1", none⟩]
      (list_sessions
        (create_session (create_session ⟨[], none, []⟩ none "a" "T1").2
          none "b" "T2").2) :=
  list_sorted_desc_stable.2.2.1 ⟨[], none, []⟩ none none "a" "b" "T1" "T2"
    (by simp) (by simp) (by decide) (String.lt_iff_toList_lt.mpr (by decide))

/-! ### Claim C8 — get/switch NotFound semantics -/

/-- C8: `get_session` and `switch_to_session` fail (with the `KeyError`
message) exactly when the id is absent from the in-memory map; `get_session`
reads only the in-memory map (its result is unchanged under any disk
contents — no implicit disk load on a miss), and both functions mutate
nothing on failure (they return only an error).  A successful switch changes
only the current-session pointer: the map and the persisted records are
untouched. -/
theorem get_switch_notfound :
    (∀ (st : ManagerState) (sid : String),
      (∃ e, get_session st sid = .error e) ↔ dictLookup st.sessions sid = none) ∧
    (∀ (st : ManagerState) (sid : String) (s : Session),
      get_session st sid = .ok s → dictLookup st.sessions sid = some s) ∧
    (∀ (st : ManagerState) (d : List (String × Json)) (sid : String),
      get_session { st with disk := d } sid = get_session st sid) ∧
    (∀ (st : ManagerState) (sid : String),
      (∃ e, switch_to_session st sid = .error e) ↔
        dictLookup st.sessions sid = none) ∧
    (∀ (st : ManagerState) (sid : String) (st' : ManagerState),
      switch_to_session st sid = .ok st' →
        st'.sessions = st.sessions ∧ st'.disk = st.disk ∧
        st'.current = dictLookup st.sessions sid) := by
  have hget : ∀ (st : ManagerState) (sid : String),
      (∃ e, get_session st sid = .error e) ↔ dictLookup st.sessions sid = none := by
    intro st sid
    constructor
    · rintro ⟨e, he⟩
      cases h : dictLookup st.sessions sid with
      | none => rfl
      | some s => rw [get_session, h] at he; cases he
    · intro h
      exact ⟨_, by rw [get_session, h]⟩
  refine ⟨hget, ?_, ?_, ?_, ?_⟩
  · intro st sid s h
    cases hl : dictLookup st.sessions sid with
    | none => rw [get_session, hl] at h; cases h
    | some s' =>
      rw [get_session, hl] at h
      cases h
      rfl
  · intro st d sid
    rfl
  · intro st sid
    rw [show (∃ e, switch_to_session st sid = .error e) ↔
        (∃ e, get_session st sid = .error e) from ?_]
    · exact hget st sid
    · constructor
      · rintro ⟨e, he⟩
        cases hg : get_session st sid with
        | error e' => exact ⟨e', rfl⟩
        | ok s => rw [switch_to_session, hg] at he; cases he
      · rintro ⟨e, he⟩
        exact ⟨e, by rw [switch_to_session, he]⟩
  · intro st sid st' h
    cases hg : get_session st sid with
    | error e => rw [switch_to_session, hg] at h; cases h
    | ok s =>
      rw [switch_to_session, hg] at h
      cases h
      refine ⟨rfl, rfl, ?_⟩
      cases hl : dictLookup st.sessions sid with
      | none => rw [get_session, hl] at hg; cases hg
      | some s' =>
        rw [get_session, hl] at hg
        cases hg
        rfl

/-- Witness for C8 at a concrete two-session store. -/
theorem get_switch_notfound_witness :
    ((∃ e, get_session ⟨[("a", ⟨"a", [], "T", none⟩)], some ⟨"a", [], "T", none⟩, []⟩
        "missing" = .error e) ↔
      dictLookup [("a", (⟨"a", [], "T", none⟩ : Session))] "missing" = none) ∧
    (switch_to_session ⟨[("a", ⟨"a", [], "T", none⟩)], some ⟨"a", [], "T", none⟩, []⟩
        "a" = .ok ⟨[("a", ⟨"a", [], "T", none⟩)], some ⟨"a", [], "T", none⟩, []⟩ →
      ([("a", (⟨"a", [], "T", none⟩ : Session))] : List (String × Session)) =
          [("a", ⟨"a", [], "T", none⟩)] ∧
        ([] : List (String × Json)) = [] ∧
        some (⟨"a", [], "T", none⟩ : Session) =
          dictLookup [("a", (⟨"a", [], "T", none⟩ : Session))] "a") :=
  ⟨get_switch_notfound.1
      ⟨[("a", ⟨"a", [], "T", none⟩)], some ⟨"a", [], "T", none⟩, []⟩ "missing",
   get_switch_notfound.2.2.2.2
      ⟨[("a", ⟨"a", [], "T", none⟩)], some ⟨"a", [], "T", none⟩, []⟩ "a"
      ⟨[("a", ⟨"a", [], "T", none⟩)], some ⟨"a", [], "T", none⟩, []⟩⟩

/-! ### Claim C2 — the store never goes empty and current stays valid -/

theorem goodState_create (st : ManagerState) (sp : Option String) (fid ts : String)
    (hnd : (st.sessions.map Prod.fst).Nodup) (hkc : keysConsistent st) :
    goodState (create_session st sp fid ts).2 := by
  refine ⟨nodup_keys_dictInsert hnd, ?_, dictInsert_ne_nil _ _ _, ?_⟩
  · intro p hp
    rcases mem_dictInsert hp with h | h
    · exact hkc p h
    · rw [h]
  · show currentValid _
    simp only [create_session, currentValid]
    exact dictLookup_insert_self st.sessions fid _

theorem currentValid_elim {st : ManagerState} {c : Session}
    (hcv : currentValid st) (hc : st.current = some c) :
    dictLookup st.sessions c.id = some c := by
  unfold currentValid at hcv
  rw [hc] at hcv
  exact hcv

theorem goodState_switch (st : ManagerState) (sid : String) (st' : ManagerState)
    (hg : goodState st) (h : switch_to_session st sid = .ok st') : goodState st' := by
  obtain ⟨hnd, hkc, hne, hcv⟩ := hg
  cases hl : dictLookup st.sessions sid with
  | none => rw [switch_to_session, get_session, hl] at h; cases h
  | some s =>
    rw [switch_to_session, get_session, hl] at h
    cases h
    refine ⟨hnd, hkc, hne, ?_⟩
    show dictLookup st.sessions s.id = some s
    rw [hkc (sid, s) (dictLookup_mem hl)]
    exact hl

theorem nodup_keys_dictDelete {α : Type} {d : List (String × α)} (k : String)
    (h : (d.map Prod.fst).Nodup) : ((dictDelete d k).map Prod.fst).Nodup :=
  h.sublist ((dictDelete_sublist d k).map Prod.fst)

theorem goodState_delete (st : ManagerState) (sid fid ts : String) (st' : ManagerState)
    (hg : goodState st) (h : delete_session st sid fid ts = .ok st') : goodState st' := by
  obtain ⟨hnd, hkc, hne, hcv⟩ := hg
  cases hc : st.current with
  | none => unfold currentValid at hcv; rw [hc] at hcv; exact hcv.elim
  | some c =>
  have hlc := currentValid_elim hcv hc
  have hnd1 : ((dictDelete st.sessions sid).map Prod.fst).Nodup :=
    nodup_keys_dictDelete sid hnd
  have hkc1 : ∀ p ∈ dictDelete st.sessions sid, (Prod.snd p).id = p.1 :=
    fun p hp => hkc p ((dictDelete_sublist st.sessions sid).subset hp)
  cases hl : dictLookup st.sessions sid with
  | none => rw [delete_session, hl] at h; cases h
  | some s0 =>
    rw [delete_session, hl] at h
    simp only [hc] at h
    by_cases hcs : c.id = sid
    · rw [if_pos hcs] at h
      cases hd : dictDelete st.sessions sid with
      | nil =>
        rw [hd] at h
        cases h
        exact goodState_create _ none fid ts (by simp)
          (by intro p hp; simp at hp)
      | cons p0 rest =>
        obtain ⟨k0, s0'⟩ := p0
        rw [hd] at h
        cases h
        refine ⟨by rw [hd] at hnd1; exact hnd1,
          fun p hp => hkc1 p (by rw [hd]; exact hp), by simp, ?_⟩
        show dictLookup ((k0, s0') :: rest) s0'.id = some s0'
        have hk0 : s0'.id = k0 := hkc1 (k0, s0') (by rw [hd]; simp)
        simp [dictLookup, hk0]
    · rw [if_neg hcs] at h
      cases h
      have hlook : dictLookup (dictDelete st.sessions sid) c.id = some c := by
        rw [dictLookup_delete_ne _ _ _ hcs]
        exact hlc
      exact ⟨hnd1, hkc1, dictLookup_ne_nil hlook, hlook⟩

theorem delete_last_creates_fresh (st : ManagerState) (k fid ts : String)
    (s : Session) (st' : ManagerState) (hg : goodState st)
    (hone : st.sessions = [(k, s)]) (h : delete_session st k fid ts = .ok st') :
    st'.sessions = [(fid, ⟨fid, [], ts, none⟩)] ∧
    st'.current = some ⟨fid, [], ts, none⟩ := by
  obtain ⟨hnd, hkc, hne, hcv⟩ := hg
  cases hc : st.current with
  | none => unfold currentValid at hcv; rw [hc] at hcv; exact hcv.elim
  | some c =>
  have hlc := currentValid_elim hcv hc
  have hck : c.id = k := by
    rw [hone] at hlc
    by_cases hkc' : k = c.id
    · exact hkc'.symm
    · rw [show dictLookup [(k, s)] c.id = none by simp [dictLookup, hkc']] at hlc
      cases hlc
  have hl : dictLookup st.sessions k = some s := by
    rw [hone]; simp [dictLookup]
  rw [delete_session, hl] at h
  simp only [hc] at h
  rw [if_pos hck] at h
  rw [show dictDelete st.sessions k = [] by rw [hone]; simp [dictDelete]] at h
  cases h
  exact ⟨rfl, rfl⟩

theorem loadFold_good (records : List (String × Json)) (d : List (String × Session))
    (hnd : (d.map Prod.fst).Nodup) (hkc : ∀ p ∈ d, (Prod.snd p).id = p.1) :
    ((records.foldl loadFoldStep d).map Prod.fst).Nodup ∧
    (∀ p ∈ records.foldl loadFoldStep d, (Prod.snd p).id = p.1) := by
  induction records generalizing d with
  | nil => exact ⟨hnd, hkc⟩
  | cons kv rest ih =>
    rw [List.foldl_cons]
    cases hkv : Session.from_dict kv.2 with
    | none =>
      rw [show loadFoldStep d kv = d from by simp [loadFoldStep, hkv]]
      exact ih d hnd hkc
    | some s =>
      rw [show loadFoldStep d kv = dictInsert d s.id s from by simp [loadFoldStep, hkv]]
      refine ih _ (nodup_keys_dictInsert hnd) ?_
      intro p hp
      rcases mem_dictInsert hp with h | h
      · exact hkc p h
      · rw [h]

theorem goodState_managerInit (disk : List (String × Json)) (fid ts : String) :
    goodState (managerInit disk fid ts) := by
  have hfold := loadFold_good disk [] (by simp) (by simp)
  cases hls : list_sessions
      ⟨disk.foldl loadFoldStep [], none, disk⟩ with
  | nil =>
    have hls' : List.insertionSort byCreatedAtDesc
        ((disk.foldl loadFoldStep ([] : List (String × Session))).map Prod.snd) = [] := hls
    have hperm := List.perm_insertionSort byCreatedAtDesc
      ((disk.foldl loadFoldStep ([] : List (String × Session))).map Prod.snd)
    rw [hls'] at hperm
    have hnil : disk.foldl loadFoldStep ([] : List (String × Session)) = [] :=
      List.map_eq_nil_iff.mp hperm.nil_eq.symm
    have hls2 := hls
    rw [hnil] at hls2
    simp only [managerInit, load_all_sessions, hnil, hls2]
    rw [if_pos trivial]
    exact goodState_create ⟨[], none, disk⟩ none fid ts (by simp)
      (by intro p hp; simp at hp)
  | cons s0 rest =>
    have hls' : List.insertionSort byCreatedAtDesc
        ((disk.foldl loadFoldStep ([] : List (String × Session))).map Prod.snd) =
          s0 :: rest := hls
    have hmem : s0 ∈ (disk.foldl loadFoldStep ([] : List (String × Session))).map Prod.snd := by
      have h0 : s0 ∈ List.insertionSort byCreatedAtDesc
          ((disk.foldl loadFoldStep ([] : List (String × Session))).map Prod.snd) := by
        rw [hls']
        exact List.mem_cons_self _ _
      exact (List.mem_insertionSort _).mp h0
    have hne2 : disk.foldl loadFoldStep ([] : List (String × Session)) ≠ [] := by
      intro he
      rw [he] at hmem
      simp at hmem
    simp only [managerInit, load_all_sessions, hls]
    rw [if_neg hne2]
    obtain ⟨p, hp, hps⟩ := List.mem_map.mp hmem
    have hpp : p = (s0.id, s0) := by
      have h1 := hfold.2 p hp
      calc p = (p.1, p.2) := rfl
        _ = (s0.id, s0) := by rw [← h1, hps]
    exact ⟨hfold.1, hfold.2, hne2, by
      show dictLookup (disk.foldl loadFoldStep []) s0.id = some s0
      exact dictLookup_of_mem_nodup hfold.1 (hpp ▸ hp)⟩

/-- C2: after construction the manager always holds at least one session
and a current session present in the map (`goodState`), and every
`create` / `switch` / `delete` preserves this; deleting the current session
reassigns `current` to a session still in the map (part of `goodState`),
and deleting the last remaining session leaves exactly one freshly created
session which is current. -/
theorem store_never_empty :
    (∀ (disk : List (String × Json)) (fid ts : String),
      goodState (managerInit disk fid ts)) ∧
    (∀ (st : ManagerState) (sp : Option String) (fid ts : String),
      goodState st → goodState (create_session st sp fid ts).2) ∧
    (∀ (st : ManagerState) (sid : String) (st' : ManagerState),
      goodState st → switch_to_session st sid = .ok st' → goodState st') ∧
    (∀ (st : ManagerState) (sid fid ts : String) (st' : ManagerState),
      goodState st → delete_session st sid fid ts = .ok st' → goodState st') ∧
    (∀ (st : ManagerState) (k fid ts : String) (s : Session) (st' : ManagerState),
      goodState st → st.sessions = [(k, s)] →
      delete_session st k fid ts = .ok st' →
      st'.sessions = [(fid, ⟨fid, [], ts, none⟩)] ∧
        st'.current = some ⟨fid, [], ts, none⟩) :=
  ⟨goodState_managerInit,
   fun st sp fid ts hg => goodState_create st sp fid ts hg.1 hg.2.1,
   goodState_switch, goodState_delete, delete_last_creates_fresh⟩

/-- Witness for C2 at concrete states: a fresh construction, a create, a
switch, and the deletion of the only session. -/
theorem store_never_empty_witness :
    goodState (managerInit [] "f0" "T0") ∧
    goodState (create_session ⟨[("a", ⟨"a", [], "T", none⟩)],
      some ⟨"a", [], "T", none⟩, []⟩ none "b" "T2").2 ∧
    (delete_session ⟨[("a", ⟨"a", [], "T", none⟩)], some ⟨"a", [], "T", none⟩, []⟩
        "a" "f" "T3" = .ok ⟨[("f", ⟨"f", [], "T3", none⟩)], some ⟨"f", [], "T3", none⟩, []⟩ →
      ((⟨[("f", ⟨"f", [], "T3", none⟩)], some ⟨"f", [], "T3", none⟩, []⟩ : ManagerState).sessions =
          [("f", ⟨"f", [], "T3", none⟩)] ∧
        (⟨[("f", ⟨"f", [], "T3", none⟩)], some ⟨"f", [], "T3", none⟩, []⟩ : ManagerState).current =
          some ⟨"f", [], "T3", none⟩)) :=
  ⟨store_never_empty.1 [] "f0" "T0",
   store_never_empty.2.1 ⟨[("a", ⟨"a", [], "T", none⟩)], some ⟨"a", [], "T", none⟩, []⟩
     none "b" "T2" (by decide),
   store_never_empty.2.2.2.2 ⟨[("a", ⟨"a", [], "T", none⟩)], some ⟨"a", [], "T", none⟩, []⟩
     "a" "f" "T3" ⟨"a", [], "T", none⟩
     ⟨[("f", ⟨"f", [], "T3", none⟩)], some ⟨"f", [], "T3", none⟩, []⟩ (by decide) rfl⟩

end ChatbotTui
